import Mathlib

/-!
Shallow embedding of the esssans I(Q) reduction core
(src/esssans/i_of_q.py and src/esssans/normalization.py).

Numeric values are modelled as exact rationals.  A scipp `DataArray` that is
dense and one-dimensional (monitor spectra, direct-beam curves, denominators,
I(Q) histograms) is modelled as `DenseData`: a coordinate list (bin edges
unless noted otherwise), a value list, and optional variances.  Event-form
("binned") data is modelled as explicit lists of event records, each carrying
its own wavelength and Q coordinate together with a weight and a variance.
scipp arithmetic raises on coordinate mismatch; the embedding returns
`Option` and yields `none` in that case.  Bin membership follows scipp's
half-open convention: a value x belongs to bin [a, b) .
-/

namespace Esssans

/-- Pairs of consecutive bin edges: `edgePairs [a, b, c] = [(a, b), (b, c)]`. -/
def edgePairs (edges : List ℚ) : List (ℚ × ℚ) :=
  edges.zip edges.tail

/-- Midpoints of a list of bin edges (scipp `sc.midpoints`). -/
def midpoints (edges : List ℚ) : List ℚ :=
  (edgePairs edges).map (fun p => (p.1 + p.2) / 2)

/-- A dense one-dimensional scipp DataArray: a coordinate (bin edges unless
noted), data values, and optional variances. -/
structure DenseData where
  coord : List ℚ
  values : List ℚ
  variances : Option (List ℚ)
deriving DecidableEq

/-- `sc.values`: strip the variances from a data array. -/
def scValues (d : DenseData) : DenseData :=
  { d with variances := none }

def zipWith3 (f : ℚ → ℚ → ℚ → ℚ) : List ℚ → List ℚ → List ℚ → List ℚ
  | a :: as, b :: bs, c :: cs => f a b c :: zipWith3 f as bs cs
  | _, _, _ => []

def zipWith4 (f : ℚ → ℚ → ℚ → ℚ → ℚ) : List ℚ → List ℚ → List ℚ → List ℚ → List ℚ
  | a :: as, b :: bs, c :: cs, d :: ds => f a b c d :: zipWith4 f as bs cs ds
  | _, _, _, _ => []

/-- Elementwise division of two dense arrays (scipp `/`).  Requires identical
coordinates (scipp raises otherwise, modelled as `none`).  Variances follow
standard first-order propagation for a quotient, matching scipp. -/
def divideDense (n d : DenseData) : Option DenseData :=
  if n.coord = d.coord then
    some { coord := n.coord,
           values := List.zipWith (fun a b => a / b) n.values d.values,
           variances :=
             (match n.variances, d.variances with
              | some nv, some dv =>
                  some (zipWith4 (fun a b va vb => va / b ^ 2 + a ^ 2 * vb / b ^ 4)
                    n.values d.values nv dv)
              | some nv, none =>
                  some (List.zipWith (fun b va => va / b ^ 2) d.values nv)
              | none, some dv =>
                  some (zipWith3 (fun a b vb => a ^ 2 * vb / b ^ 4) n.values d.values dv)
              | none, none => none) }
  else none

/-- Elementwise multiplication of two dense arrays (scipp `*`), with the
standard variance propagation for a product. -/
def mulDense (a b : DenseData) : Option DenseData :=
  if a.coord = b.coord then
    some { coord := a.coord,
           values := List.zipWith (fun x y => x * y) a.values b.values,
           variances :=
             (match a.variances, b.variances with
              | some va, some vb =>
                  some (zipWith4 (fun x y p q => y ^ 2 * p + x ^ 2 * q) a.values b.values va vb)
              | some va, none =>
                  some (List.zipWith (fun y p => y ^ 2 * p) b.values va)
              | none, some vb =>
                  some (List.zipWith (fun x q => x ^ 2 * q) a.values vb)
              | none, none => none) }
  else none

/-- Elementwise subtraction of two dense arrays (scipp `-`): values subtract,
variances add. -/
def subDense (a b : DenseData) : Option DenseData :=
  if a.coord = b.coord then
    some { coord := a.coord,
           values := List.zipWith (fun x y => x - y) a.values b.values,
           variances :=
             (match a.variances, b.variances with
              | some va, some vb => some (List.zipWith (fun p q => p + q) va vb)
              | some va, none => some va
              | none, some vb => some vb
              | none, none => none) }
  else none

/-- `transmission_fraction` (normalization.py lines 67-101):
`(sample_transmission_monitor / direct_transmission_monitor) *
 (direct_incident_monitor / sample_incident_monitor)`. -/
def transmission_fraction (sample_incident_monitor sample_transmission_monitor
    direct_incident_monitor direct_transmission_monitor : DenseData) : Option DenseData :=
  match divideDense sample_transmission_monitor direct_transmission_monitor,
        divideDense direct_incident_monitor sample_incident_monitor with
  | some a, some b => mulDense a b
  | _, _ => none

/-- Piecewise-linear interpolation through the knot list (x, y) pairs, with
linear extrapolation beyond the first and last knots (scipy `interp1d` with
`kind='linear'`, `fill_value="extrapolate"`, `bounds_error=False`). -/
def interpLinear : List (ℚ × ℚ) → ℚ → ℚ
  | [], _ => 0
  | [k], _ => k.2
  | k1 :: k2 :: rest, x =>
      if x < k2.1 ∨ rest = [] then
        k1.2 + (k2.2 - k1.2) * (x - k1.1) / (k2.1 - k1.1)
      else
        interpLinear (k2 :: rest) x

/-- `resample_direct_beam` (i_of_q.py lines 95-129): if the wavelength
coordinate already equals the requested bins, return the input unchanged;
otherwise interpolate the value-only curve at the midpoints of the target
bins (scipp `interp1d(..., midpoints=True)` attaches the target bin edges as
the output coordinate), dropping any variances. -/
def resample_direct_beam (direct_beam : DenseData) (wavelength_bins : List ℚ) : DenseData :=
  if direct_beam.coord = wavelength_bins then direct_beam
  else
    { coord := wavelength_bins,
      values := (midpoints wavelength_bins).map
        (interpLinear (direct_beam.coord.zip direct_beam.values)),
      variances := none }

/-- An individual detector/monitor event record: its own wavelength and Q
coordinate values, a weight (the data value) and a variance. -/
structure SEvent where
  wavelength : ℚ
  q : ℚ
  weight : ℚ
  variance : ℚ
deriving DecidableEq

/-- Data summed over Q (output of the Spectrum Merger, input of `normalize`):
either a dense Q histogram, or event form — Q bin edges plus one event list
per Q bin. -/
inductive SummedQ where
  | dense : DenseData → SummedQ
  | events : List ℚ → List (List SEvent) → SummedQ
deriving DecidableEq

def isEventForm : SummedQ → Bool
  | .dense _ => false
  | .events _ _ => true

/-- `.hist()` on binned data with no arguments (also `.bins.sum()`): sum the
event weights and variances inside each existing bin into dense data. -/
def histBinned (edges : List ℚ) (evs : List (List SEvent)) : DenseData :=
  { coord := edges,
    values := evs.map (fun l => (l.map SEvent.weight).sum),
    variances := some (evs.map (fun l => (l.map SEvent.variance).sum)) }

/-- `sc.lookup(func=denominator, dim='Q')` evaluated at a Q value: the
denominator value of the bin whose half-open interval contains it (out-of-
range values are irrelevant to the claims; modelled as 0). -/
def lookupValue (denominator : DenseData) (q : ℚ) : ℚ :=
  match ((edgePairs denominator.coord).zip denominator.values).find?
      (fun pb => decide (pb.1.1 ≤ q) && decide (q < pb.1.2)) with
  | some pb => pb.2
  | none => 0

/-- Division of one event by the denominator value looked up at the event's
Q coordinate (`numerator.bins / sc.lookup(func=denominator, dim='Q')`). -/
def divEventByLookup (denominator : DenseData) (e : SEvent) : SEvent :=
  { e with
    weight := e.weight / lookupValue denominator e.q,
    variance := e.variance / (lookupValue denominator e.q) ^ 2 }

/-- `numerator.hist()` from normalization.py line 262: histogram an
event-form numerator onto its existing Q bins; dense data is unaffected. -/
def histSummedQ : SummedQ → SummedQ
  | .dense d => .dense d
  | .events edges evs => .dense (histBinned edges evs)

/-- `normalize` (normalization.py lines 236-267): if the denominator carries
variances and the numerator is event data, histogram the numerator first;
then divide — per event through a Q lookup for event numerators, elementwise
for dense numerators. -/
def normalize (numerator : SummedQ) (denominator : DenseData) : Option SummedQ :=
  let numerator :=
    if denominator.variances.isSome && isEventForm numerator then histSummedQ numerator
    else numerator
  match numerator with
  | .events edges evs =>
      some (.events edges (evs.map (fun l => l.map (divEventByLookup denominator))))
  | .dense n => (divideDense n denominator).map SummedQ.dense

/-- The two `if ... is not None: ... = ....bins.sum()` coercions at the top
of `subtract_background` (i_of_q.py lines 251-254): event-form I(Q) is forced
to dense form by summing its event bins; dense I(Q) is left alone. -/
def toDenseIofQ : SummedQ → DenseData
  | .dense d => d
  | .events edges evs => histBinned edges evs

/-- `subtract_background` (i_of_q.py lines 248-255). -/
def subtract_background (sample background : SummedQ) : Option DenseData :=
  subDense (toDenseIofQ sample) (toDenseIofQ background)

/-- The Uncertainty Broadcast Mode enumeration. -/
inductive UncertaintyBroadcastMode where
  | drop
  | upper_bound
  | fail
deriving DecidableEq

/-- A 0-d scipp variable with value and optional variance (the background
level computed in `preprocess_monitor_data`). -/
structure ScalarQ where
  value : ℚ
  variance : Option ℚ
deriving DecidableEq

/-- A raw monitor quantity: dense (wavelength bin edges) or event form. -/
inductive Monitor where
  | dense : DenseData → Monitor
  | events : List SEvent → Monitor

/-- `monitor.hist(wavelength=wavelength_bins)`: histogram monitor events onto
the target wavelength bins (half-open bins, weights and variances summed). -/
def histEventsWavelength (evs : List SEvent) (edges : List ℚ) : DenseData :=
  { coord := edges,
    values := (edgePairs edges).map (fun p =>
      ((evs.filter (fun e =>
        decide (p.1 ≤ e.wavelength) && decide (e.wavelength < p.2))).map SEvent.weight).sum),
    variances := some ((edgePairs edges).map (fun p =>
      ((evs.filter (fun e =>
        decide (p.1 ≤ e.wavelength) && decide (e.wavelength < p.2))).map SEvent.variance).sum)) }

/-- Overlap length of the intervals [a, b] and [c, d]. -/
def binOverlap (a b c d : ℚ) : ℚ := max 0 (min b d - max a c)

/-- `monitor.rebin(wavelength=wavelength_bins)`: redistribute dense counts
(and variances) onto new bins in proportion to bin overlap. -/
def rebinDense (d : DenseData) (newEdges : List ℚ) : DenseData :=
  { coord := newEdges,
    values := (edgePairs newEdges).map (fun nb =>
      (((edgePairs d.coord).zip d.values).map (fun ov =>
        if ov.1.2 - ov.1.1 = 0 then 0
        else ov.2 * binOverlap ov.1.1 ov.1.2 nb.1 nb.2 / (ov.1.2 - ov.1.1))).sum),
    variances := d.variances.map (fun vars =>
      (edgePairs newEdges).map (fun nb =>
        (((edgePairs d.coord).zip vars).map (fun ov =>
          if ov.1.2 - ov.1.1 = 0 then 0
          else ov.2 * binOverlap ov.1.1 ov.1.2 nb.1 nb.2 / (ov.1.2 - ov.1.1))).sum)) }

/-- The hist-or-rebin dispatch of i_of_q.py lines 78-81: event monitors are
histogrammed, dense monitors rebinned, onto the target wavelength bins. -/
def rebinOrHist (m : Monitor) (wbins : List ℚ) : DenseData :=
  match m with
  | .events evs => histEventsWavelength evs wbins
  | .dense d => rebinDense d wbins

/-- Modelled from the spec: `mask_range` (esssans.common, not under src/)
applied with the non-background range marked in-signal, followed by
`.mean()`.  The spec (section 4.1): mask the range as in-signal, compute the
mean over the complementary region; the mean of N elements has variance equal
to the summed variances divided by N squared. -/
def estBackground (m : Monitor) (lo hi : ℚ) : ScalarQ :=
  match m with
  | .dense d =>
      let sel := ((edgePairs d.coord).zip d.values).filter
        (fun pv => !(decide (pv.1.1 < hi) && decide (lo < pv.1.2)))
      { value := (sel.map (fun pv => pv.2)).sum / (sel.length : ℚ),
        variance := d.variances.map (fun vars =>
          ((((edgePairs d.coord).zip vars).filter
            (fun pv => !(decide (pv.1.1 < hi) && decide (lo < pv.1.2)))).map
              (fun pv => pv.2)).sum / (sel.length : ℚ) ^ 2) }
  | .events evs =>
      let sel := evs.filter (fun e =>
        !(decide (lo ≤ e.wavelength) && decide (e.wavelength < hi)))
      { value := (sel.map SEvent.weight).sum / (sel.length : ℚ),
        variance := some ((sel.map SEvent.variance).sum / (sel.length : ℚ) ^ 2) }

/-- Modelled from the spec: `broadcast_with_upper_bound_variances`
(esssans.uncertainty, not under src/).  The spec (section 3): replace the
stripped-out correlated variance with a conservative, provably-not-too-small
estimate broadcast to the target shape; modelled as scaling the variance by
the number of elements broadcast to. -/
def broadcast_with_upper_bound_variances (s : ScalarQ) (n : ℕ) : ScalarQ :=
  { value := s.value, variance := s.variance.map (fun v => (n : ℚ) * v) }

/-- Subtraction of a 0-d variable from a dense array (scipp `-=` with a
scalar subtrahend): values shift, variances add. -/
def subScalar (d : DenseData) (s : ScalarQ) : DenseData :=
  { d with
    values := d.values.map (fun x => x - s.value),
    variances :=
      (match d.variances, s.variance with
       | some vs, some v => some (vs.map (fun p => p + v))
       | some vs, none => some vs
       | none, some v => some (List.replicate d.values.length v)
       | none, none => none) }

/-- `preprocess_monitor_data` (i_of_q.py lines 35-92): estimate a scalar
background from outside the non-background range (when given), rebin or
histogram onto the target wavelength bins, then subtract the background
according to the uncertainty broadcast mode (`sc.values` for drop, the
upper-bound broadcast for upper_bound, and the raw scalar otherwise). -/
def preprocess_monitor_data (monitor : Monitor) (wavelength_bins : List ℚ)
    (non_background_range : Option (ℚ × ℚ))
    (uncertainties : UncertaintyBroadcastMode) : DenseData :=
  let background := non_background_range.map (fun r => estBackground monitor r.1 r.2)
  let m := rebinOrHist monitor wavelength_bins
  match background with
  | none => m
  | some bg =>
      match uncertainties with
      | .drop => subScalar m { value := bg.value, variance := none }
      | .upper_bound => subScalar m (broadcast_with_upper_bound_variances bg m.values.length)
      | .fail => subScalar m bg

/-- One cell of a dense CleanQ array (dims pixel and wavelength): the
wavelength bin it sits in (as its half-open interval), its Q coordinate
value, its data value and its variance. -/
structure DenseCell where
  wlo : ℚ
  whi : ℚ
  q : ℚ
  value : ℚ
  variance : ℚ
deriving DecidableEq

/-- A dense CleanQ array: one list of cells per detector pixel. -/
structure DenseGrid where
  rows : List (List DenseCell)
deriving DecidableEq

/-- The input of `merge_spectra`: event data (one event list per detector
pixel) or dense data. -/
inductive CleanQ where
  | events : List (List SEvent) → CleanQ
  | dense : DenseGrid → CleanQ

/-- The `wavelength_bands` argument: either a flat one-dimensional start/end
coordinate, or already shaped as one (start, end) range per band. -/
inductive WavelengthBands where
  | flat : ℚ → ℚ → WavelengthBands
  | shaped : List (ℚ × ℚ) → WavelengthBands

/-- The fold at i_of_q.py lines 163-167: a flat band coordinate becomes a
band/wavelength shape with exactly one band. -/
def foldBands : WavelengthBands → List (ℚ × ℚ)
  | .flat lo hi => [(lo, hi)]
  | .shaped bs => bs

/-- A merged result over the Q dimension: a dense (value, variance) pair per
Q bin, or one event list per Q bin. -/
inductive QResult where
  | dense : List (ℚ × ℚ) → QResult
  | events : List (List SEvent) → QResult
deriving DecidableEq

/-- The merged result before the final `.squeeze()`: dims (Q) or (band, Q). -/
inductive PreOut where
  | flat : QResult → PreOut
  | banded : List QResult → PreOut
deriving DecidableEq

/-- The merged result after `.squeeze()`. -/
inductive MergedOut where
  | flat : QResult → MergedOut
  | banded : List QResult → MergedOut
deriving DecidableEq

/-- `out.squeeze()` at i_of_q.py line 182, restricted to the band dimension:
a band dimension of size one is squeezed away. -/
def squeezeOut : PreOut → MergedOut
  | .flat r => .flat r
  | .banded [r] => .flat r
  | .banded rs => .banded rs

/-- `q_all_pixels.bin(Q=q_bins)`: distribute events over the half-open Q
bins, keeping event order inside each bin. -/
def binByQ (evs : List SEvent) (qedges : List ℚ) : List (List SEvent) :=
  (edgePairs qedges).map (fun p =>
    evs.filter (fun e => decide (p.1 ≤ e.q) && decide (e.q < p.2)))

/-- `q_binned.bin(wavelength=wav_range).squeeze()` for a two-edge range:
inside each Q bin keep the events whose wavelength lies in [lo, hi). -/
def filterWavelengthRange (lo hi : ℚ) (l : List SEvent) : List SEvent :=
  l.filter (fun e => decide (lo ≤ e.wavelength) && decide (e.wavelength < hi))

/-- `_events_merge_spectra` (i_of_q.py lines 195-224): concatenate the event
lists of all pixels, bin by Q, and — when bands are given — bin each band by
its wavelength range in a loop, concatenating along the band dimension (a
single band never enters the concat, an empty band list leaves `out = None`,
modelled as `none`). -/
def eventsMergeSpectra (pixels : List (List SEvent)) (qedges : List ℚ)
    (wavelength_bands : Option (List (ℚ × ℚ))) : Option PreOut :=
  let q_binned := binByQ pixels.flatten qedges
  match wavelength_bands with
  | none => some (.flat (.events q_binned))
  | some bs =>
      match bs.map (fun b =>
          QResult.events (q_binned.map (filterWavelengthRange b.1 b.2))) with
      | [] => none
      | [r] => some (.flat r)
      | rs => some (.banded rs)

/-- The composite `band.hist(Q=q_bins).sum(sum_dims)` with all non-Q dims
summed away: for each Q bin, the total value and variance of the cells whose
Q coordinate falls in that bin. -/
def histSumDense (cells : List DenseCell) (qedges : List ℚ) : QResult :=
  .dense ((edgePairs qedges).map (fun p =>
    (((cells.filter (fun c => decide (p.1 ≤ c.q) && decide (c.q < p.2))).map
        DenseCell.value).sum,
     ((cells.filter (fun c => decide (p.1 ≤ c.q) && decide (c.q < p.2))).map
        DenseCell.variance).sum)))

/-- The label-based slice `data_q['wavelength', lo:hi]`: keep the wavelength
bins overlapping the requested range. -/
def sliceWavelengthCells (lo hi : ℚ) (g : DenseGrid) : DenseGrid :=
  ⟨g.rows.map (fun row =>
    row.filter (fun c => decide (lo < c.whi) && decide (c.wlo < hi)))⟩

/-- `_dense_merge_spectra` (i_of_q.py lines 227-245): histogram into Q bins
and sum over the non-final dims; with bands, slice by each band's wavelength
range first and concatenate the per-band results along the band dimension
(`sc.concat` of an empty list raises, modelled as `none`). -/
def denseMergeSpectra (g : DenseGrid) (qedges : List ℚ)
    (wavelength_bands : Option (List (ℚ × ℚ))) : Option PreOut :=
  match wavelength_bands with
  | none => some (.flat (histSumDense g.rows.flatten qedges))
  | some [] => none
  | some bs => some (.banded (bs.map (fun b =>
      histSumDense (sliceWavelengthCells b.1 b.2 g).rows.flatten qedges)))

/-- `merge_spectra` (i_of_q.py lines 132-182) with the default final dims
(just Q): fold a flat band coordinate to a single band, dispatch on the data
representation, and squeeze the result. -/
def merge_spectra (data : CleanQ) (q_bins : List ℚ)
    (wavelength_bands : Option WavelengthBands) : Option MergedOut :=
  (match data with
   | .events ps => eventsMergeSpectra ps q_bins (wavelength_bands.map foldBands)
   | .dense g => denseMergeSpectra g q_bins (wavelength_bands.map foldBands)).map
    squeezeOut

/-- The band [lo, hi) spans the full wavelength range of the data: every
event's wavelength (event form), or every wavelength bin (dense form), lies
inside it. -/
def bandCovers : CleanQ → ℚ → ℚ → Bool
  | .events ps, lo, hi => ps.all (fun l => l.all (fun e =>
      decide (lo ≤ e.wavelength) && decide (e.wavelength < hi)))
  | .dense g, lo, hi => g.rows.all (fun row => row.all (fun c =>
      decide (lo < c.whi) && decide (c.wlo < hi)))

/-- Embedding of the band-dimension inference at i_of_q.py lines 216 and
241: `band_dim = (set(wavelength_bands.dims) - set of 'wavelength').pop()`.
Python's `set.pop` raises KeyError on an empty set, but on any non-empty set
it returns an arbitrary element with no arity check. -/
def inferBandDim (dims : List String) : Except String String :=
  match dims.filter (fun d => !decide (d = "wavelength")) with
  | [] => Except.error "KeyError"
  | d :: _ => Except.ok d

/-- A position in space, with rational components. -/
structure Vec3 where
  x : ℚ
  y : ℚ
  z : ℚ
deriving DecidableEq

/-- Squared distance between two positions.  `scn.L2(data)` is the distance
itself; the code only ever uses `L2 * L2`, which equals this. -/
def sqDist (a b : Vec3) : ℚ :=
  (a.x - b.x) ^ 2 + (a.y - b.y) ^ 2 + (a.z - b.z) ^ 2

/-- Per-pixel geometry coordinates: `pixel_width`, `pixel_height`,
`position`. -/
structure PixelInfo where
  width : ℚ
  height : ℚ
  pos : Vec3
deriving DecidableEq

/-- A detector DataArray entering the solid-angle computation: its dimension
names, per-pixel geometry, the sample position, and its remaining coords and
masks recorded as (name, dims) pairs — only the dims matter to the
retention rule. -/
structure DetectorData where
  ddims : List String
  pixels : List PixelInfo
  samplePos : Vec3
  coords : List (String × List String)
  masks : List (String × List String)

/-- The solid-angle output: dims, per-pixel values, and the retained coords
and masks. -/
structure SolidAngleData where
  dims : List String
  values : List ℚ
  coords : List (String × List String)
  masks : List (String × List String)

/-- The dimensions of the computed omega array (per-pixel quantities). -/
def omegaDims : List String := ["pixel"]

/-- `solid_angle_rectangular_approximation` (normalization.py lines 35-64):
omega = pixel_width * pixel_height / L2 squared per pixel, rewrapped by
`concepts.rewrap_reduced_data`, which keeps exactly the prototype's coords
and masks that do not depend on any reduced dimension. -/
def solid_angle_rectangular_approximation (d : DetectorData) : SolidAngleData :=
  let reduced := d.ddims.filter (fun x => decide (x ∉ omegaDims))
  { dims := omegaDims,
    values := d.pixels.map (fun p => p.width * p.height / sqDist p.pos d.samplePos),
    coords := d.coords.filter (fun c => decide (∀ x ∈ c.2, x ∉ reduced)),
    masks := d.masks.filter (fun c => decide (∀ x ∈ c.2, x ∉ reduced)) }

/-- A concrete detector for the C8 witness: one extra coord on the kept
pixel dimension, one on a reduced dimension, and a mask on the pixel
dimension. -/
def detectorW : DetectorData :=
  { ddims := ["pixel", "tof"],
    pixels := [⟨2, 3, ⟨0, 0, 1⟩⟩, ⟨2, 3, ⟨0, 0, 2⟩⟩],
    samplePos := ⟨0, 0, 0⟩,
    coords := [("position", ["pixel"]), ("tof", ["tof"])],
    masks := [("bad", ["pixel"])] }

/-- C3: `transmission_fraction` returns exactly
(sample-trans / direct-trans) × (direct-incident / sample-incident),
elementwise on wavelength-dependent monitors; for the scalar monitor values
100, 80, 90, 95 the result is 72/95, within 1/10000 of 0.7579. -/
theorem claim3_transmission_fraction (si st di dt : DenseData) (c : List ℚ)
    (h1 : si.coord = c) (h2 : st.coord = c) (h3 : di.coord = c) (h4 : dt.coord = c) :
    ((transmission_fraction si st di dt).map DenseData.values
        = some (List.zipWith (fun a b => a * b)
            (List.zipWith (fun a b => a / b) st.values dt.values)
            (List.zipWith (fun a b => a / b) di.values si.values))
      ∧ (transmission_fraction si st di dt).map DenseData.coord = some c)
    ∧ (transmission_fraction ⟨[0, 1], [100], none⟩ ⟨[0, 1], [80], none⟩
        ⟨[0, 1], [90], none⟩ ⟨[0, 1], [95], none⟩).map DenseData.values = some [72 / 95]
    ∧ |(72 : ℚ) / 95 - 7579 / 10000| < 1 / 10000 := by
  refine ⟨?_, ?_, ?_⟩
  · constructor <;> simp [transmission_fraction, divideDense, mulDense, h1, h2, h3, h4]
  · simp [transmission_fraction, divideDense, mulDense]
    norm_num
  · have h : (72 : ℚ) / 95 - 7579 / 10000 = -(1 / 190000) := by norm_num
    rw [h, abs_neg, abs_of_nonneg (by norm_num : (0 : ℚ) ≤ 1 / 190000)]
    norm_num

/-- Witness for C3 at concrete single-bin monitors. -/
theorem claim3_transmission_fraction_witness :
    (transmission_fraction ⟨[0, 1], [100], none⟩ ⟨[0, 1], [80], none⟩
        ⟨[0, 1], [90], none⟩ ⟨[0, 1], [95], none⟩).map DenseData.values
      = some (List.zipWith (fun a b => a * b)
          (List.zipWith (fun a b => a / b) [(80 : ℚ)] [(95 : ℚ)])
          (List.zipWith (fun a b => a / b) [(90 : ℚ)] [(100 : ℚ)])) :=
  ((claim3_transmission_fraction ⟨[0, 1], [100], none⟩ ⟨[0, 1], [80], none⟩
    ⟨[0, 1], [90], none⟩ ⟨[0, 1], [95], none⟩ [0, 1] rfl rfl rfl rfl).1).1

/-- C4: a direct-beam curve whose wavelength coordinate already equals the
target bins is returned unchanged, hence resampling is idempotent; otherwise
the value-only curve is interpolated (with extrapolation) at the midpoints of
the target bins and the variances are dropped. -/
theorem claim4_resample_direct_beam (db : DenseData) (wbins : List ℚ) :
    (db.coord = wbins → resample_direct_beam db wbins = db)
    ∧ resample_direct_beam (resample_direct_beam db wbins) wbins
        = resample_direct_beam db wbins
    ∧ (db.coord ≠ wbins →
        (resample_direct_beam db wbins).variances = none
        ∧ (resample_direct_beam db wbins).values
            = (midpoints wbins).map (interpLinear (db.coord.zip db.values))) := by
  by_cases h : db.coord = wbins <;>
    simp [resample_direct_beam, h]

/-- Witness for C4: identity on a curve already on the target bins, and
variance dropping on a curve that is not. -/
theorem claim4_resample_direct_beam_witness :
    resample_direct_beam ⟨[0, 1, 2], [5, 6], some [1, 1]⟩ [0, 1, 2]
      = ⟨[0, 1, 2], [5, 6], some [1, 1]⟩
    ∧ (resample_direct_beam ⟨[0, 2, 4], [5, 6], some [1, 1]⟩ [0, 1, 2]).variances = none :=
  ⟨(claim4_resample_direct_beam ⟨[0, 1, 2], [5, 6], some [1, 1]⟩ [0, 1, 2]).1 rfl,
   ((claim4_resample_direct_beam ⟨[0, 2, 4], [5, 6], some [1, 1]⟩ [0, 1, 2]).2.2
      (by decide)).1⟩

/-- C2: with a variance-carrying denominator an event-form numerator is
histogrammed to dense form before the division (so the result has no residual
event structure); with a variance-free denominator an event-form numerator is
divided per event via a lookup of the denominator at the event's Q
coordinate; a dense numerator is divided elementwise. -/
theorem claim2_normalize_dispatch (den : DenseData) (edges : List ℚ)
    (evs : List (List SEvent)) (n : DenseData) :
    (den.variances.isSome = true →
      normalize (.events edges evs) den
          = (divideDense (histBinned edges evs) den).map SummedQ.dense
        ∧ ∀ r, normalize (.events edges evs) den = some r → isEventForm r = false)
    ∧ (den.variances = none →
        normalize (.events edges evs) den
          = some (.events edges (evs.map (fun l => l.map (divEventByLookup den)))))
    ∧ normalize (.dense n) den = (divideDense n den).map SummedQ.dense := by
  refine ⟨fun h => ⟨?_, ?_⟩, fun h => ?_, ?_⟩
  · simp [normalize, h, isEventForm, histSummedQ]
  · intro r hr
    simp only [normalize, h, isEventForm, Bool.and_true, if_pos, histSummedQ] at hr
    rcases hd : divideDense (histBinned edges evs) den with _ | v
    · simp [hd] at hr
    · simp [hd] at hr
      simp [← hr, isEventForm]
  · simp [normalize, h, isEventForm]
  · rcases h : den.variances with _ | v <;>
      simp [normalize, h, isEventForm]

/-- Witness for C2 on a concrete variance-carrying denominator and event
numerator, a variance-free denominator, and a dense numerator. -/
theorem claim2_normalize_dispatch_witness :
    (normalize (.events [0, 1, 2] [[⟨0, 1/2, 6, 6⟩], [⟨0, 3/2, 4, 4⟩]])
        ⟨[0, 1, 2], [2, 4], some [1, 1]⟩
      = (divideDense (histBinned [0, 1, 2] [[⟨0, 1/2, 6, 6⟩], [⟨0, 3/2, 4, 4⟩]])
          ⟨[0, 1, 2], [2, 4], some [1, 1]⟩).map SummedQ.dense)
    ∧ (normalize (.events [0, 1, 2] [[⟨0, 1/2, 6, 6⟩], [⟨0, 3/2, 4, 4⟩]])
        ⟨[0, 1, 2], [2, 4], none⟩
      = some (.events [0, 1, 2]
          ([[⟨0, 1/2, 6, 6⟩], [⟨0, 3/2, 4, 4⟩]].map
            (fun l => l.map (divEventByLookup ⟨[0, 1, 2], [2, 4], none⟩))))) :=
  ⟨((claim2_normalize_dispatch ⟨[0, 1, 2], [2, 4], some [1, 1]⟩ [0, 1, 2]
      [[⟨0, 1/2, 6, 6⟩], [⟨0, 3/2, 4, 4⟩]] ⟨[0, 1], [0], none⟩).1 rfl).1,
   (claim2_normalize_dispatch ⟨[0, 1, 2], [2, 4], none⟩ [0, 1, 2]
      [[⟨0, 1/2, 6, 6⟩], [⟨0, 3/2, 4, 4⟩]] ⟨[0, 1], [0], none⟩).2.1 rfl⟩

/-- Dividing elementwise by a list of ones is the identity. -/
theorem zipWith_div_ones (xs ys : List ℚ) (hl : ys.length = xs.length)
    (hone : ∀ y ∈ ys, y = 1) :
    List.zipWith (fun a b => a / b) xs ys = xs := by
  induction xs generalizing ys with
  | nil => simp
  | cons a as ih =>
      cases ys with
      | nil => simp at hl
      | cons b bs =>
          have hb : b = 1 := hone b (by simp)
          simp only [List.zipWith, hb, div_one]
          rw [ih bs (by simpa using hl) (fun y hy => hone y (List.mem_cons_of_mem _ hy))]

/-- Scaling variances by the inverse square of ones is the identity. -/
theorem zipWith_invsq_ones (ys vs : List ℚ) (hl : ys.length = vs.length)
    (hone : ∀ y ∈ ys, y = 1) :
    List.zipWith (fun b va => va / b ^ 2) ys vs = vs := by
  induction vs generalizing ys with
  | nil => simp
  | cons a as ih =>
      cases ys with
      | nil => simp at hl
      | cons b bs =>
          have hb : b = 1 := hone b (by simp)
          simp only [List.zipWith, hb, one_pow, div_one]
          rw [ih bs (by simpa using hl) (fun y hy => hone y (List.mem_cons_of_mem _ hy))]

/-- C7: dividing a dense numerator by an all-ones denominator without
variances returns the numerator unchanged. -/
theorem claim7_normalize_ones_identity (n d : DenseData)
    (hc : d.coord = n.coord) (hv : d.variances = none)
    (hlen : d.values.length = n.values.length)
    (hone : ∀ x ∈ d.values, x = 1)
    (hwf : ∀ vs, n.variances = some vs → vs.length = n.values.length) :
    normalize (.dense n) d = some (.dense n) := by
  obtain ⟨nc, nvals, nvar⟩ := n
  obtain ⟨dc, dvals, dvar⟩ := d
  simp only at hc hv hlen hone hwf
  subst hv hc
  rcases nvar with _ | vs
  · simp [normalize, divideDense, isEventForm,
      zipWith_div_ones nvals dvals hlen hone]
  · simp [normalize, divideDense, isEventForm,
      zipWith_div_ones nvals dvals hlen hone,
      zipWith_invsq_ones dvals vs (by rw [hlen, hwf vs rfl]) hone]

/-- Witness for C7 at a concrete numerator and all-ones denominator. -/
theorem claim7_normalize_ones_identity_witness :
    normalize (.dense ⟨[0, 1, 2, 3], [10, 20, 30], some [4, 5, 6]⟩)
        ⟨[0, 1, 2, 3], [1, 1, 1], none⟩
      = some (.dense ⟨[0, 1, 2, 3], [10, 20, 30], some [4, 5, 6]⟩) :=
  claim7_normalize_ones_identity ⟨[0, 1, 2, 3], [10, 20, 30], some [4, 5, 6]⟩
    ⟨[0, 1, 2, 3], [1, 1, 1], none⟩ rfl rfl rfl
    (by decide) (by intro vs h; cases h; rfl)

/-- C9: `subtract_background` forces both inputs to dense form by summing
event bins, then subtracts elementwise; for sample [10, 20, 30] and
background [1, 2, 3] the result is [9, 18, 27]. -/
theorem claim9_subtract_background (s b : SummedQ)
    (hc : (toDenseIofQ s).coord = (toDenseIofQ b).coord) :
    (∃ r, subtract_background s b = some r
      ∧ r.coord = (toDenseIofQ s).coord
      ∧ r.values = List.zipWith (fun x y => x - y)
          (toDenseIofQ s).values (toDenseIofQ b).values)
    ∧ subtract_background (.dense ⟨[0, 1, 2, 3], [10, 20, 30], none⟩)
        (.dense ⟨[0, 1, 2, 3], [1, 2, 3], none⟩)
      = some ⟨[0, 1, 2, 3], [9, 18, 27], none⟩ := by
  constructor
  · unfold subtract_background subDense
    rw [if_pos hc]
    exact ⟨_, rfl, rfl, rfl⟩
  · simp only [subtract_background, toDenseIofQ, subDense, if_pos rfl]
    norm_num

/-- Witness for C9, with an event-form sample whose per-bin sums are
[10, 20, 30] against a dense background [1, 2, 3]. -/
theorem claim9_subtract_background_witness :
    ∃ r, subtract_background
        (.events [0, 1, 2, 3] [[⟨0, 0, 10, 10⟩], [⟨0, 0, 20, 20⟩], [⟨0, 0, 30, 30⟩]])
        (.dense ⟨[0, 1, 2, 3], [1, 2, 3], none⟩) = some r
      ∧ r.coord = (toDenseIofQ (.events [0, 1, 2, 3]
          [[⟨0, 0, 10, 10⟩], [⟨0, 0, 20, 20⟩], [⟨0, 0, 30, 30⟩]])).coord
      ∧ r.values = List.zipWith (fun x y => x - y)
          (toDenseIofQ (.events [0, 1, 2, 3]
            [[⟨0, 0, 10, 10⟩], [⟨0, 0, 20, 20⟩], [⟨0, 0, 30, 30⟩]])).values
          (toDenseIofQ (.dense ⟨[0, 1, 2, 3], [1, 2, 3], none⟩)).values :=
  (claim9_subtract_background
    (.events [0, 1, 2, 3] [[⟨0, 0, 10, 10⟩], [⟨0, 0, 20, 20⟩], [⟨0, 0, 30, 30⟩]])
    (.dense ⟨[0, 1, 2, 3], [1, 2, 3], none⟩) rfl).1

/-- C1: with no non-background range, `preprocess_monitor_data` is the pure
rebinning/histogramming onto the target bins; with a range, the estimated
scalar background is subtracted from the rebinned monitor — under drop only
its value (monitor variances unchanged), under upper_bound with the
upper-bound variance estimate broadcast to the rebinned shape (variance
scaled by the number of bins), under fail with its variance unadjusted.  The
output always carries the target wavelength bins as its coordinate. -/
theorem claim1_preprocess_monitor_data (m : Monitor) (wbins : List ℚ) (lo hi : ℚ)
    (u : UncertaintyBroadcastMode) (vs : List ℚ) (bv : ℚ)
    (hv : (rebinOrHist m wbins).variances = some vs)
    (hb : (estBackground m lo hi).variance = some bv) :
    preprocess_monitor_data m wbins none u = rebinOrHist m wbins
    ∧ (rebinOrHist m wbins).coord = wbins
    ∧ (preprocess_monitor_data m wbins (some (lo, hi)) u).coord = wbins
    ∧ (preprocess_monitor_data m wbins (some (lo, hi)) u).values
        = (rebinOrHist m wbins).values.map (fun x => x - (estBackground m lo hi).value)
    ∧ (preprocess_monitor_data m wbins (some (lo, hi)) .drop).variances = some vs
    ∧ (preprocess_monitor_data m wbins (some (lo, hi)) .upper_bound).variances
        = some (vs.map (fun x => x + ((rebinOrHist m wbins).values.length : ℚ) * bv))
    ∧ (preprocess_monitor_data m wbins (some (lo, hi)) .fail).variances
        = some (vs.map (fun x => x + bv)) := by
  have hcoord : (rebinOrHist m wbins).coord = wbins := by
    cases m <;> rfl
  refine ⟨?_, hcoord, ?_, ?_, ?_, ?_, ?_⟩
  · rfl
  · cases u <;> simp [preprocess_monitor_data, subScalar, hcoord]
  · cases u <;>
      simp [preprocess_monitor_data, subScalar, broadcast_with_upper_bound_variances]
  · simp [preprocess_monitor_data, subScalar, hv]
  · simp [preprocess_monitor_data, subScalar, broadcast_with_upper_bound_variances, hv, hb,
      mul_comm]
  · simp [preprocess_monitor_data, subScalar, hv, hb]

/-- Witness for C1 on a concrete event-form monitor with one in-range and
one out-of-range event. -/
theorem claim1_preprocess_monitor_data_witness :
    ((rebinOrHist (.events [⟨1/2, 0, 5, 3⟩, ⟨7/2, 0, 4, 2⟩]) [0, 1, 2, 3]).variances
        = some [3, 0, 0])
    ∧ ((estBackground (.events [⟨1/2, 0, 5, 3⟩, ⟨7/2, 0, 4, 2⟩]) 0 3).variance = some 2)
    ∧ preprocess_monitor_data (.events [⟨1/2, 0, 5, 3⟩, ⟨7/2, 0, 4, 2⟩]) [0, 1, 2, 3]
        none .drop
      = rebinOrHist (.events [⟨1/2, 0, 5, 3⟩, ⟨7/2, 0, 4, 2⟩]) [0, 1, 2, 3]
    ∧ (preprocess_monitor_data (.events [⟨1/2, 0, 5, 3⟩, ⟨7/2, 0, 4, 2⟩]) [0, 1, 2, 3]
        (some (0, 3)) .fail).variances = some ([3, 0, 0].map (fun x => x + 2)) := by
  have h1 : (rebinOrHist (.events [⟨1/2, 0, 5, 3⟩, ⟨7/2, 0, 4, 2⟩]) [0, 1, 2, 3]).variances
      = some [3, 0, 0] := by
    simp only [rebinOrHist, histEventsWavelength, edgePairs]
    norm_num [List.filter]
  have h2 : (estBackground (.events [⟨1/2, 0, 5, 3⟩, ⟨7/2, 0, 4, 2⟩]) 0 3).variance
      = some 2 := by
    simp only [estBackground]
    norm_num [List.filter]
  have h := claim1_preprocess_monitor_data (.events [⟨1/2, 0, 5, 3⟩, ⟨7/2, 0, 4, 2⟩])
    [0, 1, 2, 3] 0 3 .drop [3, 0, 0] 2 h1 h2
  exact ⟨h1, h2, h.1, h.2.2.2.2.2.2⟩

theorem map_eq_self_of_mem {α : Type} (f : α → α) (l : List α)
    (h : ∀ x ∈ l, f x = x) : l.map f = l := by
  induction l with
  | nil => rfl
  | cons a as ih => simp [h a (by simp), ih (fun x hx => h x (by simp [hx]))]

theorem filterWavelengthRange_eq_self (lo hi : ℚ) (l : List SEvent)
    (h : ∀ e ∈ l, lo ≤ e.wavelength ∧ e.wavelength < hi) :
    filterWavelengthRange lo hi l = l := by
  unfold filterWavelengthRange
  rw [List.filter_eq_self]
  intro e he
  simp [(h e he).1, (h e he).2]

theorem mem_binByQ (evs : List SEvent) (qedges : List ℚ) (l : List SEvent)
    (hl : l ∈ binByQ evs qedges) : ∀ e ∈ l, e ∈ evs := by
  unfold binByQ at hl
  rcases List.mem_map.mp hl with ⟨p, _, hfl⟩
  intro e he
  rw [← hfl] at he
  exact (List.mem_filter.mp he).1

/-- C5: merging with a single wavelength band that spans the full wavelength
range (given flat or already shaped) produces the same output as merging
with no band specified, for event and dense data alike. -/
theorem claim5_full_band_equals_no_band (data : CleanQ) (qedges : List ℚ) (lo hi : ℚ)
    (h : bandCovers data lo hi = true) :
    merge_spectra data qedges (some (.shaped [(lo, hi)]))
      = merge_spectra data qedges none
    ∧ merge_spectra data qedges (some (.flat lo hi))
      = merge_spectra data qedges none := by
  have hfold : merge_spectra data qedges (some (.flat lo hi))
      = merge_spectra data qedges (some (.shaped [(lo, hi)])) := rfl
  have main : merge_spectra data qedges (some (.shaped [(lo, hi)]))
      = merge_spectra data qedges none := by
    cases data with
    | events ps =>
        simp only [bandCovers, List.all_eq_true, Bool.and_eq_true,
          decide_eq_true_eq] at h
        have hq : (binByQ ps.flatten qedges).map (filterWavelengthRange lo hi)
            = binByQ ps.flatten qedges := by
          apply map_eq_self_of_mem
          intro l hl
          apply filterWavelengthRange_eq_self
          intro e he
          rcases List.mem_flatten.mp (mem_binByQ ps.flatten qedges l hl e he) with
            ⟨l2, hl2, he2⟩
          exact h l2 hl2 e he2
        simp [merge_spectra, foldBands, eventsMergeSpectra, hq, squeezeOut]
    | dense g =>
        simp only [bandCovers, List.all_eq_true, Bool.and_eq_true,
          decide_eq_true_eq] at h
        have hs : sliceWavelengthCells lo hi g = g := by
          cases g with
          | mk rows =>
              simp only [sliceWavelengthCells, DenseGrid.mk.injEq]
              apply map_eq_self_of_mem
              intro row hrow
              rw [List.filter_eq_self]
              intro c hc
              simp [(h row hrow c hc).1, (h row hrow c hc).2]
        simp [merge_spectra, foldBands, denseMergeSpectra, hs, squeezeOut]
  exact ⟨main, hfold.trans main⟩

/-- Witness for C5 on concrete event and dense data fully inside the band. -/
theorem claim5_full_band_equals_no_band_witness :
    (merge_spectra (.events [[⟨1, 1, 1, 1⟩], [⟨1, 3, 2, 2⟩]]) [0, 2, 4]
        (some (.shaped [(0, 2)]))
      = merge_spectra (.events [[⟨1, 1, 1, 1⟩], [⟨1, 3, 2, 2⟩]]) [0, 2, 4] none)
    ∧ (merge_spectra (.dense ⟨[[⟨0, 1, 1, 5, 5⟩], [⟨1, 2, 3, 6, 6⟩]]⟩) [0, 2, 4]
        (some (.flat 0 2))
      = merge_spectra (.dense ⟨[[⟨0, 1, 1, 5, 5⟩], [⟨1, 2, 3, 6, 6⟩]]⟩) [0, 2, 4] none) :=
  ⟨(claim5_full_band_equals_no_band (.events [[⟨1, 1, 1, 1⟩], [⟨1, 3, 2, 2⟩]])
      [0, 2, 4] 0 2 (by decide)).1,
   (claim5_full_band_equals_no_band (.dense ⟨[[⟨0, 1, 1, 5, 5⟩], [⟨1, 2, 3, 6, 6⟩]]⟩)
      [0, 2, 4] 0 2 (by decide)).2⟩

/-- C10: a single requested wavelength band — flat, or shaped with one band —
leaves no band dimension in the merged output; two or more bands leave a band
dimension of that length. -/
theorem claim10_band_dim_squeeze (data : CleanQ) (qedges : List ℚ) (lo hi : ℚ)
    (b1 b2 : ℚ × ℚ) (rest : List (ℚ × ℚ)) :
    (∃ q, merge_spectra data qedges (some (.flat lo hi)) = some (.flat q))
    ∧ (∃ q, merge_spectra data qedges (some (.shaped [b1])) = some (.flat q))
    ∧ (∃ qs, merge_spectra data qedges (some (.shaped (b1 :: b2 :: rest)))
        = some (.banded qs) ∧ qs.length = (b1 :: b2 :: rest).length) := by
  cases data with
  | events ps =>
      refine
        ⟨⟨.events ((binByQ ps.flatten qedges).map (filterWavelengthRange lo hi)), ?_⟩,
         ⟨.events ((binByQ ps.flatten qedges).map (filterWavelengthRange b1.1 b1.2)), ?_⟩,
         ⟨(b1 :: b2 :: rest).map (fun b =>
             QResult.events ((binByQ ps.flatten qedges).map
               (filterWavelengthRange b.1 b.2))), ?_, ?_⟩⟩ <;>
        simp [merge_spectra, foldBands, eventsMergeSpectra, squeezeOut]
  | dense g =>
      refine
        ⟨⟨histSumDense (sliceWavelengthCells lo hi g).rows.flatten qedges, ?_⟩,
         ⟨histSumDense (sliceWavelengthCells b1.1 b1.2 g).rows.flatten qedges, ?_⟩,
         ⟨(b1 :: b2 :: rest).map (fun b =>
             histSumDense (sliceWavelengthCells b.1 b.2 g).rows.flatten qedges), ?_, ?_⟩⟩ <;>
        simp [merge_spectra, foldBands, denseMergeSpectra, squeezeOut]

/-- C6 counterexample: a band coordinate with two dimensions besides
wavelength violates the exactly-one assumption, yet the inference is not
fatal — the pop silently returns one of the two dimensions and the merge
proceeds with ill-formed input. -/
theorem claim6_counterexample :
    (["det", "layer", "wavelength"].filter
        (fun d => !decide (d = "wavelength"))).length = 2
    ∧ inferBandDim ["det", "layer", "wavelength"] = Except.ok "det" := by
  constructor <;> rfl

/-- C6 amended: the inference assumes exactly one dimension besides
wavelength; with zero other dimensions it is fatal (empty-set pop), but with
more than one it silently selects one of them and proceeds. -/
theorem claim6_band_dim_inference (dims : List String) :
    (dims.filter (fun d => !decide (d = "wavelength")) = []
       ↔ inferBandDim dims = Except.error "KeyError")
    ∧ (dims.filter (fun d => !decide (d = "wavelength")) ≠ [] →
        ∃ b, inferBandDim dims = Except.ok b ∧ b ∈ dims ∧ b ≠ "wavelength") := by
  constructor
  · constructor
    · intro h
      unfold inferBandDim
      rw [h]
    · intro h
      rcases hf : dims.filter (fun d => !decide (d = "wavelength")) with _ | ⟨a, as⟩
      · rfl
      · unfold inferBandDim at h
        rw [hf] at h
        exact absurd h (by simp)
  · intro h
    rcases hf : dims.filter (fun d => !decide (d = "wavelength")) with _ | ⟨a, as⟩
    · exact absurd hf h
    · have ha : a ∈ dims.filter (fun d => !decide (d = "wavelength")) := by
        rw [hf]
        exact List.mem_cons_self a as
      have hmem := List.mem_filter.mp ha
      refine ⟨a, ?_, hmem.1, ?_⟩
      · unfold inferBandDim
        rw [hf]
      · simpa using hmem.2

/-- Witness for C6 amended, at a well-formed two-dimensional band coordinate. -/
theorem claim6_band_dim_inference_witness :
    ∃ b, inferBandDim ["band", "wavelength"] = Except.ok b
      ∧ b ∈ ["band", "wavelength"] ∧ b ≠ "wavelength" :=
  (claim6_band_dim_inference ["band", "wavelength"]).2 (by decide)

/-- C8: the solid angle per pixel is width times height over the squared
sample-to-pixel distance, and a coord or mask (whose dims occur in the data)
is retained exactly when all its dimensions are among the output's
dimensions. -/
theorem claim8_solid_angle (d : DetectorData) :
    (solid_angle_rectangular_approximation d).values
      = d.pixels.map (fun p => p.width * p.height / sqDist p.pos d.samplePos)
    ∧ (∀ c ∈ d.coords, (∀ x ∈ c.2, x ∈ d.ddims) →
        (c ∈ (solid_angle_rectangular_approximation d).coords
          ↔ ∀ x ∈ c.2, x ∈ omegaDims))
    ∧ (∀ c ∈ d.masks, (∀ x ∈ c.2, x ∈ d.ddims) →
        (c ∈ (solid_angle_rectangular_approximation d).masks
          ↔ ∀ x ∈ c.2, x ∈ omegaDims)) := by
  have key : ∀ (L : List (String × List String)) (c : String × List String),
      c ∈ L → (∀ x ∈ c.2, x ∈ d.ddims) →
      (c ∈ L.filter (fun c => decide (∀ x ∈ c.2,
          x ∉ d.ddims.filter (fun x => decide (x ∉ omegaDims))))
        ↔ ∀ x ∈ c.2, x ∈ omegaDims) := by
    intro L c hc hsub
    rw [List.mem_filter]
    constructor
    · rintro ⟨-, hp⟩ x hx
      have hnr := of_decide_eq_true hp x hx
      by_contra hno
      exact hnr (List.mem_filter.mpr ⟨hsub x hx, decide_eq_true hno⟩)
    · intro hall
      refine ⟨hc, decide_eq_true ?_⟩
      intro x hx hmem
      exact of_decide_eq_true (List.mem_filter.mp hmem).2 (hall x hx)
  exact ⟨rfl, fun c hc hsub => key d.coords c hc hsub,
    fun c hc hsub => key d.masks c hc hsub⟩

/-- Witness for C8 on `detectorW`: the values formula, retention of the
pixel-dimension coord, and dropping of the tof-dimension coord. -/
theorem claim8_solid_angle_witness :
    (solid_angle_rectangular_approximation detectorW).values
      = detectorW.pixels.map (fun p => p.width * p.height / sqDist p.pos detectorW.samplePos)
    ∧ ("position", ["pixel"]) ∈ (solid_angle_rectangular_approximation detectorW).coords
    ∧ ("tof", ["tof"]) ∉ (solid_angle_rectangular_approximation detectorW).coords :=
  ⟨(claim8_solid_angle detectorW).1,
   (((claim8_solid_angle detectorW).2.1 ("position", ["pixel"]) (by decide)
      (by decide)).mpr (by decide)),
   (fun hmem => by
      have := (((claim8_solid_angle detectorW).2.1 ("tof", ["tof"]) (by decide)
        (by decide)).mp hmem "tof" (by decide))
      simp [omegaDims] at this)⟩

end Esssans
